import Mathlib

/-!
Verification of `sawtooth_poet/poet_consensus/consensus_state.py`.

The Python module is shallowly embedded as follows.

* Python `float` values are modelled by `PyFloat`: a finite value carries an
  exact rational, and the non-finite values `inf`, `-inf` and `nan` are
  explicit constructors.  IEEE-754 rounding is abstracted away (finite
  addition is exact rational addition); none of the verified properties
  depends on rounding, only on the finite/non-finite and sign distinctions
  the code actually tests (`math.isfinite`, `< 0`).
* The CBOR layer is modelled at the value level by `CVal`, the type of values
  the `cbor` library hands to / receives from Python: integers, floats,
  text strings, arrays, maps and null.  `cbor.loads (cbor.dumps v)` is the
  identity on this domain, so `serialize_to_bytes` produces a `CVal` and
  `parse_from_bytes` consumes one; the byte encoding itself is out of scope.
  A `CVal.cmap` stands for the *decoded* Python dict: keys are unique and
  listed in insertion order (CBOR-level duplicate keys are collapsed by the
  decoder before the code under verification ever runs).
* Python dicts (both the decoded ones and `ConsensusState._validators`) are
  insertion-ordered association lists with `pyDictGet` / `pyDictInsert`
  mirroring `d.get(k)` / `d[k] = v`.
* `float(x)` / `int(x)` coercions are modelled by `pyFloatOfCVal` /
  `pyIntOfCVal` on the CBOR value domain.  Numeric-string coercion
  (`float("3.5")`) is not modelled: strings are treated as non-coercible.
  No verified property depends on string-to-number coercion.
  `int` of a finite float truncates toward zero, as in Python; `int` of a
  non-finite float raises (ValueError for nan, OverflowError for inf).
* `ValidatorState._make` accepts exactly a 3-element array; exotic
  3-element iterables (e.g. a 3-character string) are not modelled, and no
  verified property depends on them.
* Exceptions are modelled by `Except String` / an `Option String` error
  component.  `parse_from_bytes` mutates `self` in place in the source, so
  it is modelled as `ConsensusState → CVal → ConsensusState × Option String`
  returning the (possibly partially updated) instance together with the
  raised error, `none` meaning success.
* The `LOGGER.debug` call and `__str__` have no effect on the verified
  state and are omitted.
-/

/-- Model of a Python `float`: an exact rational when finite, or one of the
three non-finite values. -/
inductive PyFloat where
  | finite (q : ℚ)
  | inf
  | neginf
  | nan
deriving DecidableEq, Repr

/-- Python `math.isfinite`. -/
def PyFloat.isfinite : PyFloat → Bool
  | .finite _ => true
  | _ => false

/-- Python `x < 0` on a float (false for `nan` and `inf`, true for `-inf`). -/
def PyFloat.ltZero : PyFloat → Bool
  | .finite q => decide (q < 0)
  | .neginf => true
  | _ => false

/-- Python `+` on floats, with IEEE rounding abstracted to exact rational
addition; the non-finite propagation rules are IEEE's. -/
def PyFloat.add : PyFloat → PyFloat → PyFloat
  | .nan, _ => .nan
  | .finite _, .nan => .nan
  | .inf, .nan => .nan
  | .neginf, .nan => .nan
  | .finite q, .finite r => .finite (q + r)
  | .finite _, .inf => .inf
  | .finite _, .neginf => .neginf
  | .inf, .finite _ => .inf
  | .neginf, .finite _ => .neginf
  | .inf, .inf => .inf
  | .neginf, .neginf => .neginf
  | .inf, .neginf => .nan
  | .neginf, .inf => .nan

/-- The rational carried by a finite `PyFloat` (0 otherwise). -/
def PyFloat.toRat : PyFloat → ℚ
  | .finite q => q
  | _ => 0

/-- Model of the values the `cbor` library exchanges with Python: integers,
floats, text strings, arrays, maps (decoded dicts: unique keys in insertion
order) and null. -/
inductive CVal where
  | cint (n : ℤ)
  | cfloat (f : PyFloat)
  | cstr (s : String)
  | carr (xs : List CVal)
  | cmap (entries : List (CVal × CVal))
  | cnull

/-- Python `d[k]` / `d.get(k)` on a decoded dict, looked up with a string
key: returns the value of the entry whose key is the text string `k` (a
non-string key never equals a string under Python `==`). -/
def pyDictGetStr : List (CVal × CVal) → String → Option CVal
  | [], _ => none
  | (CVal.cstr k, v) :: rest, key =>
      if k = key then some v else pyDictGetStr rest key
  | _ :: rest, key => pyDictGetStr rest key

/-- Python `d.get(k)` on a string-keyed dict modelled as an association
list. -/
def pyDictGet {V : Type} : List (String × V) → String → Option V
  | [], _ => none
  | (k, v) :: rest, key => if k = key then some v else pyDictGet rest key

/-- Python `d[k] = v` on a string-keyed dict: overwrite in place if the key
is present, else append (insertion order). -/
def pyDictInsert {V : Type} : List (String × V) → String → V → List (String × V)
  | [], key, v => [(key, v)]
  | (k, w) :: rest, key, v =>
      if k = key then (key, v) :: rest else (k, w) :: pyDictInsert rest key v

/-- Python `str(x)` on a decoded CBOR value, as used for validator-map keys.
Only the string and integer cases are ever exercised by well-formed buffers;
the remaining renderings are placeholders (no verified property depends on
them). -/
def pyStrOfCVal : CVal → String
  | .cstr s => s
  | .cint n => toString n
  | .cfloat _ => "float"
  | .carr _ => "list"
  | .cmap _ => "dict"
  | .cnull => "None"

/-- Python `float(x)` on a decoded CBOR value.  Integers and floats coerce;
everything else raises (numeric-string coercion is not modelled, see module
docstring). -/
def pyFloatOfCVal : CVal → Except String PyFloat
  | .cint n => .ok (.finite n)
  | .cfloat f => .ok f
  | _ => .error "TypeError: float() argument"

/-- Truncation toward zero of a rational, as Python `int(float)` does. -/
def ratTrunc (q : ℚ) : ℤ := Int.tdiv q.num q.den

/-- Python `int(x)` on a decoded CBOR value.  Integers pass through, finite
floats truncate toward zero, non-finite floats raise, everything else raises
(numeric-string coercion is not modelled, see module docstring). -/
def pyIntOfCVal : CVal → Except String ℤ
  | .cint n => .ok n
  | .cfloat (.finite q) => .ok (ratTrunc q)
  | .cfloat _ => .error "cannot convert non-finite float to integer"
  | _ => .error "TypeError: int() argument"

/-- The `ValidatorState` named tuple: per-validator claim statistics. -/
structure ValidatorState where
  key_block_claim_count : ℤ
  poet_public_key : String
  total_block_claim_count : ℤ
deriving DecidableEq, Repr

/-- A `ValidatorState` named tuple as rebuilt by `ValidatorState._make` from
a decoded CBOR array, before `_check_validator_state` has vetted the field
types: each field is still a raw decoded value. -/
structure RawValidatorState where
  key_block_claim_count : CVal
  poet_public_key : CVal
  total_block_claim_count : CVal

/-- `ValidatorState._make(value)`: succeeds exactly on a 3-element array,
binding the fields positionally. -/
def validatorStateMake : CVal → Except String RawValidatorState
  | .carr [a, b, c] => .ok ⟨a, b, c⟩
  | _ => .error "Expected 3 arguments"

/-- The `signup_info` component of a validator-registry record. -/
structure SignupInfo where
  poet_public_key : String
deriving DecidableEq, Repr

/-- The `ValidatorInfo` record supplied by the validator registry. -/
structure ValidatorInfo where
  id : String
  name : String
  signup_info : SignupInfo
deriving DecidableEq, Repr

/-- The `WaitCertificate` interface consumed here: only `local_mean`. -/
structure WaitCertificate where
  local_mean : PyFloat
deriving DecidableEq, Repr

/-- The `ConsensusState` object: two aggregates plus the validator dict
(insertion-ordered, unique keys). -/
structure ConsensusState where
  aggregate_local_mean : PyFloat
  total_block_claim_count : ℤ
  validators : List (String × ValidatorState)
deriving DecidableEq, Repr

namespace ConsensusState

/-- `ConsensusState.__init__`: all zero / empty. -/
def init : ConsensusState :=
  { aggregate_local_mean := .finite 0
    total_block_claim_count := 0
    validators := [] }

/-- `ConsensusState._check_validator_state`: the four fail-fast checks on a
raw decoded validator state; on success the fields are known to be two
non-negative integers and a non-empty string. -/
def checkValidatorState (v : RawValidatorState) : Except String ValidatorState :=
  match v.key_block_claim_count with
  | .cint k =>
      if k < 0 then .error "key_block_claim_count is invalid"
      else
        match v.poet_public_key with
        | .cstr p =>
            if p.length < 1 then .error "poet_public_key is invalid"
            else
              match v.total_block_claim_count with
              | .cint t =>
                  if t < 0 then .error "total_block_claim_count is invalid"
                  else if t < k then
                    .error "total_block_claim_count is less than key_block_claim_count"
                  else .ok ⟨k, p, t⟩
              | _ => .error "total_block_claim_count is invalid"
        | _ => .error "poet_public_key is invalid"
  | _ => .error "key_block_claim_count is invalid"

/-- `ConsensusState.get_validator_state`: return the stored record, or
synthesize, store and return the default record on first read. -/
def get_validator_state (s : ConsensusState) (vi : ValidatorInfo) :
    ValidatorState × ConsensusState :=
  match pyDictGet s.validators vi.id with
  | some vs => (vs, s)
  | none =>
      let vs : ValidatorState :=
        { key_block_claim_count := 0
          poet_public_key := vi.signup_info.poet_public_key
          total_block_claim_count := 0 }
      (vs, { s with validators := pyDictInsert s.validators vi.id vs })

/-- `ConsensusState.validator_did_claim_block`: bump the two aggregates,
fetch (or default-create) the validator record, then replace it wholesale
with the updated counts under the current signup key. -/
def validator_did_claim_block (s : ConsensusState) (vi : ValidatorInfo)
    (wc : WaitCertificate) : ConsensusState :=
  let s1 : ConsensusState :=
    { s with
      aggregate_local_mean := s.aggregate_local_mean.add wc.local_mean
      total_block_claim_count := s.total_block_claim_count + 1 }
  let r := s1.get_validator_state vi
  let validator_state := r.1
  let s2 := r.2
  let total_block_claim_count := validator_state.total_block_claim_count + 1
  let key_block_claim_count :=
    if vi.signup_info.poet_public_key = validator_state.poet_public_key then
      validator_state.key_block_claim_count + 1
    else 1
  { s2 with
    validators :=
      pyDictInsert s2.validators vi.id
        { key_block_claim_count := key_block_claim_count
          poet_public_key := vi.signup_info.poet_public_key
          total_block_claim_count := total_block_claim_count } }

/-- `ConsensusState.serialize_to_bytes`: `cbor.dumps(self.__dict__)`, at the
CBOR value level.  The named tuples serialize as plain 3-element arrays. -/
def serialize_to_bytes (s : ConsensusState) : CVal :=
  .cmap
    [ (.cstr "aggregate_local_mean", .cfloat s.aggregate_local_mean),
      (.cstr "total_block_claim_count", .cint s.total_block_claim_count),
      (.cstr "_validators",
        .cmap (s.validators.map fun kv =>
          (CVal.cstr kv.1,
           CVal.carr
             [ .cint kv.2.key_block_claim_count,
               .cstr kv.2.poet_public_key,
               .cint kv.2.total_block_claim_count ]))) ]

/-- The `for key, value in validators.items()` loop of `parse_from_bytes`:
rebuild `self._validators` entry by entry, stopping at the first entry that
`_make` or `_check_validator_state` rejects (the partially rebuilt dict is
left on the instance). -/
def parseValidatorsLoop (s : ConsensusState) :
    List (CVal × CVal) → ConsensusState × Option String
  | [] => (s, none)
  | (key, value) :: rest =>
      match validatorStateMake value with
      | .error e => (s, some e)
      | .ok raw =>
          match checkValidatorState raw with
          | .error e => (s, some e)
          | .ok vs =>
              parseValidatorsLoop
                { s with validators := pyDictInsert s.validators (pyStrOfCVal key) vs }
                rest

/-- `ConsensusState.parse_from_bytes`, at the CBOR value level: the decoded
buffer is consumed field by field, each assignment landing on the instance
before the next check runs, exactly as in the source; the returned
`Option String` is the raised error (`none` on success) and the returned
state is the instance as the call leaves it. -/
def parse_from_bytes (s : ConsensusState) (buffer : CVal) :
    ConsensusState × Option String :=
  match buffer with
  | .cmap self_dict =>
      match pyDictGetStr self_dict "aggregate_local_mean" with
      | none => (s, some "KeyError: aggregate_local_mean")
      | some almRaw =>
          match pyFloatOfCVal almRaw with
          | .error e => (s, some e)
          | .ok alm =>
              let s1 : ConsensusState := { s with aggregate_local_mean := alm }
              match pyDictGetStr self_dict "total_block_claim_count" with
              | none => (s1, some "KeyError: total_block_claim_count")
              | some tbccRaw =>
                  match pyIntOfCVal tbccRaw with
                  | .error e => (s1, some e)
                  | .ok tbcc =>
                      let s2 : ConsensusState :=
                        { s1 with total_block_claim_count := tbcc }
                      match pyDictGetStr self_dict "_validators" with
                      | none => (s2, some "KeyError: _validators")
                      | some validators =>
                          if ¬ alm.isfinite ∨ alm.ltZero then
                            (s2, some "aggregate_local_mean is invalid")
                          else if tbcc < 0 then
                            (s2, some "total_block_claim_count is invalid")
                          else
                            match validators with
                            | .cmap ventries =>
                                parseValidatorsLoop { s2 with validators := [] } ventries
                            | _ => (s2, some "_validators is not a dict")
  | _ => (s, some "buffer is not a valid serialization of a ConsensusState object")

end ConsensusState

/-- The record invariant of a `ValidatorState`: non-negative counts, a
non-empty key, and the current-key count bounded by the lifetime count. -/
def ValidatorState.valid (v : ValidatorState) : Prop :=
  0 ≤ v.key_block_claim_count ∧ 1 ≤ v.poet_public_key.length ∧
    0 ≤ v.total_block_claim_count ∧
    v.key_block_claim_count ≤ v.total_block_claim_count

instance (v : ValidatorState) : Decidable v.valid := by
  unfold ValidatorState.valid; infer_instance

/-- A valid in-memory `ConsensusState`: finite non-negative aggregate,
non-negative total count, unique validator keys (a Python dict cannot hold
duplicates) and every record satisfying the record invariant. -/
def ConsensusState.valid (s : ConsensusState) : Prop :=
  s.aggregate_local_mean.isfinite = true ∧ s.aggregate_local_mean.ltZero = false ∧
    0 ≤ s.total_block_claim_count ∧
    (∀ kv ∈ s.validators, kv.2.valid) ∧
    s.validators.Pairwise (fun a b => a.1 ≠ b.1)

instance (s : ConsensusState) : Decidable s.valid := by
  unfold ConsensusState.valid; infer_instance

section DictLemmas

variable {V : Type}

theorem pyDictGet_insert_self (d : List (String × V)) (k : String) (v : V) :
    pyDictGet (pyDictInsert d k v) k = some v := by
  induction d with
  | nil => simp [pyDictInsert, pyDictGet]
  | cons hd tl ih =>
      by_cases h : hd.1 = k
      · simp [pyDictInsert, pyDictGet, h]
      · simp only [pyDictInsert, pyDictGet, h, if_false]
        simpa [pyDictGet, h] using ih

theorem pyDictGet_insert_ne (d : List (String × V)) (k k' : String) (v : V)
    (h : k' ≠ k) : pyDictGet (pyDictInsert d k v) k' = pyDictGet d k' := by
  have hkk : k ≠ k' := Ne.symm h
  induction d with
  | nil => simp [pyDictInsert, pyDictGet, hkk]
  | cons hd tl ih =>
      by_cases hk : hd.1 = k
      · simp [pyDictInsert, pyDictGet, hk, hkk]
      · simp [pyDictInsert, pyDictGet, hk, ih]

theorem pyDictInsert_fresh (d : List (String × V)) (k : String) (v : V)
    (h : pyDictGet d k = none) : pyDictInsert d k v = d ++ [(k, v)] := by
  induction d with
  | nil => simp [pyDictInsert]
  | cons hd tl ih =>
      by_cases hk : hd.1 = k
      · simp [pyDictGet, hk] at h
      · simp only [pyDictGet, hk, if_false] at h
        simp [pyDictInsert, hk, ih h]

end DictLemmas

namespace ConsensusState

/-- Characterization of `validator_did_claim_block` on the validator that
holds a stored record: the record is replaced wholesale by the updated
counts. -/
theorem validator_did_claim_block_stored (s : ConsensusState)
    (vi : ValidatorInfo) (wc : WaitCertificate) (vs : ValidatorState)
    (h : pyDictGet s.validators vi.id = some vs) :
    validator_did_claim_block s vi wc =
      { aggregate_local_mean := s.aggregate_local_mean.add wc.local_mean
        total_block_claim_count := s.total_block_claim_count + 1
        validators :=
          pyDictInsert s.validators vi.id
            { key_block_claim_count :=
                if vi.signup_info.poet_public_key = vs.poet_public_key then
                  vs.key_block_claim_count + 1
                else 1
              poet_public_key := vi.signup_info.poet_public_key
              total_block_claim_count := vs.total_block_claim_count + 1 } } := by
  simp [validator_did_claim_block, get_validator_state, h]

end ConsensusState

/-- An operation of the public mutating interface of `ConsensusState`, used
to describe sequences of calls. -/
inductive Op where
  | get (vi : ValidatorInfo)
  | claim (vi : ValidatorInfo) (wc : WaitCertificate)
  | parse (buffer : CVal)

/-- Apply one interface call to a state (for `parse_from_bytes` the instance
as the call leaves it, whether or not an error was raised). -/
def applyOp (s : ConsensusState) : Op → ConsensusState
  | .get vi => (s.get_validator_state vi).2
  | .claim vi wc => s.validator_did_claim_block vi wc
  | .parse buffer => (s.parse_from_bytes buffer).1

/-- Apply a sequence of interface calls from left to right. -/
def applyOps (s : ConsensusState) (ops : List Op) : ConsensusState :=
  ops.foldl applyOp s

/-- `true` for the calls that leave the stored record of identity `id` in
place: any `get_validator_state`, and any claim by a different identity. -/
def Op.preservesRecordOf (id : String) : Op → Bool
  | .get _ => true
  | .claim vi _ => vi.id ≠ id
  | .parse _ => false

/-- A `get_validator_state` or `validator_did_claim_block` call for another
identity never disturbs the record stored for `id`. -/
theorem applyOp_preserves_record (s : ConsensusState) (op : Op) (id : String)
    (vs : ValidatorState) (hop : op.preservesRecordOf id = true)
    (h : pyDictGet s.validators id = some vs) :
    pyDictGet (applyOp s op).validators id = some vs := by
  cases op with
  | get vi =>
      by_cases hid : vi.id = id
      · subst hid
        simp [applyOp, ConsensusState.get_validator_state, h]
      · cases hg : pyDictGet s.validators vi.id with
        | some w => simp [applyOp, ConsensusState.get_validator_state, hg, h]
        | none =>
            simp [applyOp, ConsensusState.get_validator_state, hg,
              pyDictGet_insert_ne _ _ _ _ (fun he => hid he.symm), h]
  | claim vi wc =>
      have hid : vi.id ≠ id := by simpa [Op.preservesRecordOf] using hop
      have hne : id ≠ vi.id := Ne.symm hid
      cases hg : pyDictGet s.validators vi.id with
      | some w =>
          simp [applyOp, ConsensusState.validator_did_claim_block,
            ConsensusState.get_validator_state, hg,
            pyDictGet_insert_ne _ _ _ _ hne, h]
      | none =>
          simp [applyOp, ConsensusState.validator_did_claim_block,
            ConsensusState.get_validator_state, hg,
            pyDictGet_insert_ne _ _ _ _ hne, h]
  | parse buffer => simp [Op.preservesRecordOf] at hop

/-- A sequence of record-preserving calls never disturbs the record stored
for `id`. -/
theorem applyOps_preserves_record (ops : List Op) (s : ConsensusState)
    (id : String) (vs : ValidatorState)
    (hops : ∀ op ∈ ops, op.preservesRecordOf id = true)
    (h : pyDictGet s.validators id = some vs) :
    pyDictGet (applyOps s ops).validators id = some vs := by
  induction ops generalizing s with
  | nil => simpa [applyOps] using h
  | cons op rest ih =>
      have h1 := applyOp_preserves_record s op id vs (hops op (by simp)) h
      simpa [applyOps] using
        ih (applyOp s op) (fun o ho => hops o (by simp [ho])) h1

/-- C4: recording a block claim for a validator whose stored record is
`{key_block_claim_count := k, poet_public_key := P,
total_block_claim_count := t}` under current signup key `K` replaces the
record wholesale with `key_block_claim_count = k + 1` if `K = P` and `1`
otherwise, `poet_public_key = K`, and `total_block_claim_count = t + 1`. -/
theorem C4_claim_update_replaces_record (s : ConsensusState)
    (vi : ValidatorInfo) (wc : WaitCertificate) (k t : ℤ) (P : String)
    (h : pyDictGet s.validators vi.id = some ⟨k, P, t⟩) :
    pyDictGet (s.validator_did_claim_block vi wc).validators vi.id =
      some
        { key_block_claim_count :=
            if vi.signup_info.poet_public_key = P then k + 1 else 1
          poet_public_key := vi.signup_info.poet_public_key
          total_block_claim_count := t + 1 } := by
  rw [ConsensusState.validator_did_claim_block_stored s vi wc ⟨k, P, t⟩ h]
  exact pyDictGet_insert_self ..

/-- Witness for C4: both branches of the key-continuity check on concrete
states (same key: `{2, A, 5}` becomes `{3, A, 6}`; rotated key: `{2, A, 5}`
becomes `{1, B, 6}`). -/
theorem C4_claim_update_replaces_record_witness :
    pyDictGet
        ((ConsensusState.mk (.finite 0) 0 [("v1", ⟨2, "A", 5⟩)]).validator_did_claim_block
          ⟨"v1", "n", ⟨"A"⟩⟩ ⟨.finite 1⟩).validators "v1" =
      some ⟨3, "A", 6⟩ ∧
    pyDictGet
        ((ConsensusState.mk (.finite 0) 0 [("v1", ⟨2, "A", 5⟩)]).validator_did_claim_block
          ⟨"v1", "n", ⟨"B"⟩⟩ ⟨.finite 1⟩).validators "v1" =
      some ⟨1, "B", 6⟩ := by
  constructor
  · simpa using
      C4_claim_update_replaces_record (ConsensusState.mk (.finite 0) 0 [("v1", ⟨2, "A", 5⟩)])
        ⟨"v1", "n", ⟨"A"⟩⟩ ⟨.finite 1⟩ 2 5 "A" rfl
  · simpa using
      C4_claim_update_replaces_record (ConsensusState.mk (.finite 0) 0 [("v1", ⟨2, "A", 5⟩)])
        ⟨"v1", "n", ⟨"B"⟩⟩ ⟨.finite 1⟩ 2 5 "A" rfl

/-- C8: for an identity already present in the map, `get_validator_state`
returns the stored record exactly and leaves the state unchanged, no matter
what current signup key is supplied. -/
theorem C8_get_existing_record (s : ConsensusState) (vi : ValidatorInfo)
    (vs : ValidatorState) (h : pyDictGet s.validators vi.id = some vs) :
    s.get_validator_state vi = (vs, s) := by
  simp [ConsensusState.get_validator_state, h]

/-- Witness for C8: the stored record `{2, A, 5}` is returned unchanged even
though the supplied signup key is `B`. -/
theorem C8_get_existing_record_witness :
    (ConsensusState.mk (.finite 0) 0 [("v1", ⟨2, "A", 5⟩)]).get_validator_state
        ⟨"v1", "n", ⟨"B"⟩⟩ =
      (⟨2, "A", 5⟩, ConsensusState.mk (.finite 0) 0 [("v1", ⟨2, "A", 5⟩)]) :=
  C8_get_existing_record (ConsensusState.mk (.finite 0) 0 [("v1", ⟨2, "A", 5⟩)])
    ⟨"v1", "n", ⟨"B"⟩⟩ ⟨2, "A", 5⟩ rfl

/-- C6: for an unseen identity, `get_validator_state` returns the default
record `{0, supplied key, 0}`, inserts it into the map, and any later
`get_validator_state` call for the same identity — across any sequence of
gets and of claims by other identities — returns that same record without
modifying the state. -/
theorem C6_default_record_creation (s : ConsensusState) (vi : ValidatorInfo)
    (h : pyDictGet s.validators vi.id = none) :
    (s.get_validator_state vi).1 =
        ⟨0, vi.signup_info.poet_public_key, 0⟩ ∧
    pyDictGet (s.get_validator_state vi).2.validators vi.id =
        some ⟨0, vi.signup_info.poet_public_key, 0⟩ ∧
    ∀ ops : List Op, (∀ op ∈ ops, op.preservesRecordOf vi.id = true) →
      ∀ vi2 : ValidatorInfo, vi2.id = vi.id →
        (applyOps (s.get_validator_state vi).2 ops).get_validator_state vi2 =
          (⟨0, vi.signup_info.poet_public_key, 0⟩,
            applyOps (s.get_validator_state vi).2 ops) := by
  refine ⟨by simp [ConsensusState.get_validator_state, h], ?_, ?_⟩
  · simp [ConsensusState.get_validator_state, h, pyDictGet_insert_self]
  · intro ops hops vi2 hid
    have hstored :
        pyDictGet (s.get_validator_state vi).2.validators vi.id =
          some ⟨0, vi.signup_info.poet_public_key, 0⟩ := by
      simp [ConsensusState.get_validator_state, h, pyDictGet_insert_self]
    have hafter :=
      applyOps_preserves_record ops (s.get_validator_state vi).2 vi.id
        ⟨0, vi.signup_info.poet_public_key, 0⟩ hops hstored
    rw [← hid] at hafter
    simp [ConsensusState.get_validator_state, h] at hafter
    simp [ConsensusState.get_validator_state, hafter, h]

/-- Witness for C6: identity `v2` is unseen in a one-validator state; after
a get for `v1` and a claim by `v1`, a get for `v2` still returns the default
record created for it. -/
theorem C6_default_record_creation_witness :
    ((ConsensusState.mk (.finite 0) 0 [("v1", ⟨2, "A", 5⟩)]).get_validator_state
        ⟨"v2", "n", ⟨"K"⟩⟩).1 =
      ⟨0, "K", 0⟩ ∧
    (applyOps
        ((ConsensusState.mk (.finite 0) 0
            [("v1", ⟨2, "A", 5⟩)]).get_validator_state ⟨"v2", "n", ⟨"K"⟩⟩).2
        [Op.get ⟨"v1", "n", ⟨"A"⟩⟩,
          Op.claim ⟨"v1", "n", ⟨"A"⟩⟩ ⟨.finite 1⟩]).get_validator_state
        ⟨"v2", "n", ⟨"K2"⟩⟩ =
      (⟨0, "K", 0⟩,
        applyOps
          ((ConsensusState.mk (.finite 0) 0
              [("v1", ⟨2, "A", 5⟩)]).get_validator_state ⟨"v2", "n", ⟨"K"⟩⟩).2
          [Op.get ⟨"v1", "n", ⟨"A"⟩⟩,
            Op.claim ⟨"v1", "n", ⟨"A"⟩⟩ ⟨.finite 1⟩]) := by
  have hmain :=
    C6_default_record_creation (ConsensusState.mk (.finite 0) 0 [("v1", ⟨2, "A", 5⟩)])
      ⟨"v2", "n", ⟨"K"⟩⟩ rfl
  refine ⟨hmain.1, ?_⟩
  exact hmain.2.2
    [Op.get ⟨"v1", "n", ⟨"A"⟩⟩, Op.claim ⟨"v1", "n", ⟨"A"⟩⟩ ⟨.finite 1⟩]
    (by decide) ⟨"v2", "n", ⟨"K2"⟩⟩ rfl



/-- `validator_did_claim_block` always adds `local_mean` to the aggregate
and increments the global claim count, whichever branch the per-validator
update takes. -/
theorem validator_did_claim_block_aggregates (s : ConsensusState)
    (vi : ValidatorInfo) (wc : WaitCertificate) :
    (s.validator_did_claim_block vi wc).aggregate_local_mean =
        s.aggregate_local_mean.add wc.local_mean ∧
    (s.validator_did_claim_block vi wc).total_block_claim_count =
        s.total_block_claim_count + 1 := by
  cases hg : pyDictGet s.validators vi.id with
  | some vs =>
      simp [ConsensusState.validator_did_claim_block,
        ConsensusState.get_validator_state, hg]
  | none =>
      simp [ConsensusState.validator_did_claim_block,
        ConsensusState.get_validator_state, hg]

/-- Apply a sequence of `validator_did_claim_block` calls from left to
right. -/
def applyClaims (s : ConsensusState)
    (cs : List (ValidatorInfo × WaitCertificate)) : ConsensusState :=
  cs.foldl (fun t c => t.validator_did_claim_block c.1 c.2) s

/-- Running-aggregate characterization of a claim sequence over any start
state with a finite aggregate. -/
theorem applyClaims_aggregates (cs : List (ValidatorInfo × WaitCertificate))
    (s : ConsensusState) (q : ℚ) (hq : s.aggregate_local_mean = .finite q)
    (h : ∀ c ∈ cs, c.2.local_mean.isfinite = true) :
    (applyClaims s cs).aggregate_local_mean =
        .finite (q + (cs.map fun c => c.2.local_mean.toRat).sum) ∧
    (applyClaims s cs).total_block_claim_count =
        s.total_block_claim_count + cs.length := by
  induction cs generalizing s q with
  | nil => simp [applyClaims, hq]
  | cons c rest ih =>
      obtain ⟨r, hr⟩ : ∃ r, c.2.local_mean = .finite r := by
        cases hlm : c.2.local_mean with
        | finite r => exact ⟨r, rfl⟩
        | inf => have := h c (by simp); rw [hlm] at this; simp [PyFloat.isfinite] at this
        | neginf => have := h c (by simp); rw [hlm] at this; simp [PyFloat.isfinite] at this
        | nan => have := h c (by simp); rw [hlm] at this; simp [PyFloat.isfinite] at this
      have hstep := validator_did_claim_block_aggregates s c.1 c.2
      have hagg1 : (s.validator_did_claim_block c.1 c.2).aggregate_local_mean =
          .finite (q + r) := by
        rw [hstep.1, hq, hr]; rfl
      have hrest :=
        ih (s.validator_did_claim_block c.1 c.2) (q + r) hagg1
          (fun c2 hc2 => h c2 (by simp [hc2]))
      refine ⟨?_, ?_⟩
      · rw [show applyClaims s (c :: rest) =
            applyClaims (s.validator_did_claim_block c.1 c.2) rest from rfl,
          hrest.1]
        simp only [List.map_cons, List.sum_cons, hr, PyFloat.toRat]
        congr 1
        ring
      · rw [show applyClaims s (c :: rest) =
            applyClaims (s.validator_did_claim_block c.1 c.2) rest from rfl,
          hrest.2, hstep.2]
        simp
        omega

/-- C5: starting from a freshly constructed state, after any sequence of
claims with finite non-negative local means `m_1 .. m_N`, the aggregate
local mean is the sum of the `m_i` and the total block claim count is `N`,
whatever validators made the claims. -/
theorem C5_aggregate_accounting (cs : List (ValidatorInfo × WaitCertificate))
    (h : ∀ c ∈ cs, c.2.local_mean.isfinite = true ∧ c.2.local_mean.ltZero = false) :
    (applyClaims ConsensusState.init cs).aggregate_local_mean =
        .finite ((cs.map fun c => c.2.local_mean.toRat).sum) ∧
    (applyClaims ConsensusState.init cs).total_block_claim_count = cs.length := by
  have hmain :=
    applyClaims_aggregates cs ConsensusState.init 0 rfl (fun c hc => (h c hc).1)
  refine ⟨?_, ?_⟩
  · rw [hmain.1]; ring_nf
  · rw [hmain.2]; simp [ConsensusState.init]

/-- Witness for C5: two claims by different validators with local means 2
and 3 give aggregate 5 and total count 2. -/
theorem C5_aggregate_accounting_witness :
    (applyClaims ConsensusState.init
          [(⟨"v1", "n", ⟨"A"⟩⟩, ⟨.finite 2⟩), (⟨"v2", "n", ⟨"B"⟩⟩, ⟨.finite 3⟩)]).aggregate_local_mean =
        .finite 5 ∧
    (applyClaims ConsensusState.init
          [(⟨"v1", "n", ⟨"A"⟩⟩, ⟨.finite 2⟩), (⟨"v2", "n", ⟨"B"⟩⟩, ⟨.finite 3⟩)]).total_block_claim_count = 2 := by
  have hmain :=
    C5_aggregate_accounting
      [(⟨"v1", "n", ⟨"A"⟩⟩, ⟨.finite 2⟩), (⟨"v2", "n", ⟨"B"⟩⟩, ⟨.finite 3⟩)]
      (by
        intro c hc
        simp only [List.mem_cons, List.not_mem_nil, or_false] at hc
        rcases hc with rfl | rfl <;>
          exact ⟨rfl, by norm_num [PyFloat.ltZero]⟩)
  refine ⟨?_, hmain.2⟩
  rw [hmain.1]
  norm_num [PyFloat.toRat]

/-- Whether a decoded CBOR value is the text string `key` (i.e. would
collide with that dict key under Python equality). -/
def isStrKey (v : CVal) (key : String) : Bool :=
  match v with
  | .cstr s => s = key
  | _ => false

/-- String-keyed lookup distributes over appended dict segments: the first
segment wins when it binds the key. -/
theorem pyDictGetStr_append (e1 e2 : List (CVal × CVal)) (key : String) :
    pyDictGetStr (e1 ++ e2) key =
      match pyDictGetStr e1 key with
      | some v => some v
      | none => pyDictGetStr e2 key := by
  induction e1 with
  | nil => simp [pyDictGetStr]
  | cons kv rest ih =>
      obtain ⟨k, v⟩ := kv
      cases k with
      | cstr s =>
          by_cases hk : s = key
          · simp [pyDictGetStr, hk]
          · simp [pyDictGetStr, hk, ih]
      | cint n => simpa [pyDictGetStr] using ih
      | cfloat f => simpa [pyDictGetStr] using ih
      | carr xs => simpa [pyDictGetStr] using ih
      | cmap m => simpa [pyDictGetStr] using ih
      | cnull => simpa [pyDictGetStr] using ih

/-- A dict segment none of whose keys is the string `key` does not bind
`key`. -/
theorem pyDictGetStr_none (e : List (CVal × CVal)) (key : String)
    (h : ∀ kv ∈ e, isStrKey kv.1 key = false) : pyDictGetStr e key = none := by
  induction e with
  | nil => rfl
  | cons kv rest ih =>
      obtain ⟨k, v⟩ := kv
      have hk := h (k, v) (by simp)
      have hrest := ih fun kv2 h2 => h (kv2) (by simp [h2])
      cases k with
      | cstr s =>
          have : ¬ s = key := by simpa [isStrKey] using hk
          simp [pyDictGetStr, this, hrest]
      | cint n => simpa [pyDictGetStr] using hrest
      | cfloat f => simpa [pyDictGetStr] using hrest
      | carr xs => simpa [pyDictGetStr] using hrest
      | cmap m => simpa [pyDictGetStr] using hrest
      | cnull => simpa [pyDictGetStr] using hrest

/-- `parse_from_bytes` inspects a decoded top-level mapping only through the
bindings of its three reserved keys. -/
theorem parse_from_bytes_congr (s : ConsensusState)
    (e1 e2 : List (CVal × CVal))
    (h1 : pyDictGetStr e1 "aggregate_local_mean" =
        pyDictGetStr e2 "aggregate_local_mean")
    (h2 : pyDictGetStr e1 "total_block_claim_count" =
        pyDictGetStr e2 "total_block_claim_count")
    (h3 : pyDictGetStr e1 "_validators" = pyDictGetStr e2 "_validators") :
    s.parse_from_bytes (.cmap e1) = s.parse_from_bytes (.cmap e2) := by
  simp only [ConsensusState.parse_from_bytes, h1, h2, h3]

/-- C9: a decoded top-level mapping may carry arbitrary additional entries
before or after the three reserved ones: `parse_from_bytes` behaves exactly
as it does without them — the extra keys are ignored, never reach the
resulting state, and never cause a validation failure. -/
theorem C9_extra_top_level_keys_ignored (s : ConsensusState)
    (pre entries post : List (CVal × CVal))
    (h : ∀ kv ∈ pre ++ post,
        isStrKey kv.1 "aggregate_local_mean" = false ∧
        isStrKey kv.1 "total_block_claim_count" = false ∧
        isStrKey kv.1 "_validators" = false) :
    s.parse_from_bytes (.cmap (pre ++ entries ++ post)) =
      s.parse_from_bytes (.cmap entries) := by
  have hpre : ∀ kv ∈ pre, kv ∈ pre ++ post := fun kv hkv => by simp [hkv]
  have hpost : ∀ kv ∈ post, kv ∈ pre ++ post := fun kv hkv => by simp [hkv]
  have key1 : ∀ key : String,
      (∀ kv ∈ pre ++ post, isStrKey kv.1 key = false) →
      pyDictGetStr (pre ++ entries ++ post) key = pyDictGetStr entries key := by
    intro key hkey
    have hp : pyDictGetStr pre key = none :=
      pyDictGetStr_none pre key fun kv hkv => hkey kv (hpre kv hkv)
    have hq : pyDictGetStr post key = none :=
      pyDictGetStr_none post key fun kv hkv => hkey kv (hpost kv hkv)
    rw [List.append_assoc, pyDictGetStr_append, hp, pyDictGetStr_append, hq]
    cases pyDictGetStr entries key <;> rfl
  exact parse_from_bytes_congr s (pre ++ entries ++ post) entries
    (key1 "aggregate_local_mean" fun kv hkv => (h kv hkv).1)
    (key1 "total_block_claim_count" fun kv hkv => (h kv hkv).2.1)
    (key1 "_validators" fun kv hkv => (h kv hkv).2.2)

/-- Witness for C9: a buffer with an extra entry before and a non-string
extra key after the three reserved entries parses exactly as the plain
buffer does. -/
theorem C9_extra_top_level_keys_ignored_witness :
    ConsensusState.init.parse_from_bytes
        (.cmap
          ([(.cstr "color", .cnull)] ++
            [(.cstr "aggregate_local_mean", .cfloat (.finite 2)),
              (.cstr "total_block_claim_count", .cint 1),
              (.cstr "_validators",
                .cmap [(.cstr "v1", .carr [.cint 1, .cstr "K", .cint 1])])] ++
            [(.cint 7, .carr [])])) =
      ConsensusState.init.parse_from_bytes
        (.cmap
          [(.cstr "aggregate_local_mean", .cfloat (.finite 2)),
            (.cstr "total_block_claim_count", .cint 1),
            (.cstr "_validators",
              .cmap [(.cstr "v1", .carr [.cint 1, .cstr "K", .cint 1])])]) := by
  apply C9_extra_top_level_keys_ignored
  intro kv hkv
  simp only [List.cons_append, List.nil_append, List.mem_cons,
    List.not_mem_nil, or_false] at hkv
  rcases hkv with rfl | rfl <;> exact ⟨rfl, rfl, rfl⟩

/-- A record that passes `_check_validator_state` satisfies the record
invariant. -/
theorem checkValidatorState_ok_valid (raw : RawValidatorState)
    (vs : ValidatorState)
    (h : ConsensusState.checkValidatorState raw = .ok vs) : vs.valid := by
  unfold ConsensusState.checkValidatorState at h
  repeat' split at h
  all_goals first
    | (injection h with h2
       subst h2
       simp only [ValidatorState.valid]
       refine ⟨by omega, by omega, by omega, by omega⟩)
    | cases h

/-- A valid record re-encoded as its positional tuple passes
`_check_validator_state` and is reconstructed exactly. -/
theorem checkValidatorState_encode (v : ValidatorState) (hv : v.valid) :
    ConsensusState.checkValidatorState
        ⟨.cint v.key_block_claim_count, .cstr v.poet_public_key,
          .cint v.total_block_claim_count⟩ = .ok v := by
  obtain ⟨k, p, t⟩ := v
  simp only [ValidatorState.valid] at hv
  obtain ⟨h1, h2, h3, h4⟩ := hv
  simp only [ConsensusState.checkValidatorState]
  rw [if_neg (by omega)]
  rw [if_neg (by omega)]
  rw [if_neg (by omega)]
  rw [if_neg (by omega)]

/-- If the validator loop finishes without an error, every entry of the
decoded validators dict passed `_make` and `_check_validator_state`. -/
theorem parseValidatorsLoop_success_checks (entries : List (CVal × CVal))
    (s : ConsensusState)
    (h : (ConsensusState.parseValidatorsLoop s entries).2 = none) :
    ∀ kv ∈ entries, ∃ raw vs, validatorStateMake kv.2 = .ok raw ∧
      ConsensusState.checkValidatorState raw = .ok vs := by
  induction entries generalizing s with
  | nil => simp
  | cons kv rest ih =>
      obtain ⟨key, value⟩ := kv
      simp only [ConsensusState.parseValidatorsLoop] at h
      cases hmake : validatorStateMake value with
      | error e => simp only [hmake] at h; exact absurd h (by simp)
      | ok raw =>
          simp only [hmake] at h
          cases hcheck : ConsensusState.checkValidatorState raw with
          | error e => simp only [hcheck] at h; exact absurd h (by simp)
          | ok vs =>
              simp only [hcheck] at h
              intro kv2 hkv2
              rcases List.mem_cons.mp hkv2 with rfl | hkv2
              · exact ⟨raw, vs, hmake, hcheck⟩
              · exact ih _ h kv2 hkv2

/-- The validator loop never touches the two aggregate fields. -/
theorem parseValidatorsLoop_fields (entries : List (CVal × CVal))
    (s : ConsensusState) :
    (ConsensusState.parseValidatorsLoop s entries).1.aggregate_local_mean =
        s.aggregate_local_mean ∧
    (ConsensusState.parseValidatorsLoop s entries).1.total_block_claim_count =
        s.total_block_claim_count := by
  induction entries generalizing s with
  | nil => exact ⟨rfl, rfl⟩
  | cons kv rest ih =>
      obtain ⟨key, value⟩ := kv
      simp only [ConsensusState.parseValidatorsLoop]
      cases hmake : validatorStateMake value with
      | error e => simp [hmake]
      | ok raw =>
          simp only [hmake]
          cases hcheck : ConsensusState.checkValidatorState raw with
          | error e => simp [hcheck]
          | ok vs => simp only [hcheck]; exact ih _

/-- Every element of an overwrite-or-append insert is the inserted pair or
an element of the original dict. -/
theorem pyDictInsert_mem {V : Type} (d : List (String × V)) (k : String)
    (v : V) : ∀ kv ∈ pyDictInsert d k v, kv = (k, v) ∨ kv ∈ d := by
  induction d with
  | nil => simp [pyDictInsert]
  | cons hd tl ih =>
      intro kv hkv
      by_cases hk : hd.1 = k
      · simp only [pyDictInsert, hk, if_pos] at hkv
        rcases List.mem_cons.mp hkv with rfl | hkv
        · exact Or.inl rfl
        · exact Or.inr (by simp [hkv])
      · simp only [pyDictInsert, hk, if_false] at hkv
        rcases List.mem_cons.mp hkv with rfl | hkv
        · exact Or.inr (by simp)
        · rcases ih kv hkv with h | h
          · exact Or.inl h
          · exact Or.inr (by simp [h])

/-- If every record already in the accumulator is valid and the loop
finishes without error, every record of the resulting validator map is
valid. -/
theorem parseValidatorsLoop_all_valid (entries : List (CVal × CVal))
    (s : ConsensusState) (hs : ∀ kv ∈ s.validators, kv.2.valid)
    (h : (ConsensusState.parseValidatorsLoop s entries).2 = none) :
    ∀ kv ∈ (ConsensusState.parseValidatorsLoop s entries).1.validators,
      kv.2.valid := by
  induction entries generalizing s with
  | nil => simpa [ConsensusState.parseValidatorsLoop] using hs
  | cons kv rest ih =>
      obtain ⟨key, value⟩ := kv
      simp only [ConsensusState.parseValidatorsLoop] at h ⊢
      cases hmake : validatorStateMake value with
      | error e => simp only [hmake] at h; exact absurd h (by simp)
      | ok raw =>
          simp only [hmake] at h ⊢
          cases hcheck : ConsensusState.checkValidatorState raw with
          | error e => simp only [hcheck] at h; exact absurd h (by simp)
          | ok vs =>
              simp only [hcheck] at h ⊢
              refine ih _ ?_ h
              intro kv2 hkv2
              rcases pyDictInsert_mem _ _ _ kv2 hkv2 with rfl | hkv2
              · exact checkValidatorState_ok_valid raw vs hcheck
              · exact hs kv2 hkv2

/-- Full characterization of a successful `parse_from_bytes` call: the three
reserved entries were found and coerced, the two range checks passed, and the
result is the validator loop run from the freshly assigned aggregates over
the decoded validators dict. -/
theorem parse_from_bytes_success_shape (s : ConsensusState)
    (entries : List (CVal × CVal))
    (h : (s.parse_from_bytes (.cmap entries)).2 = none) :
    ∃ almRaw alm tbccRaw tbcc ventries,
      pyDictGetStr entries "aggregate_local_mean" = some almRaw ∧
      pyFloatOfCVal almRaw = .ok alm ∧
      alm.isfinite = true ∧ alm.ltZero = false ∧
      pyDictGetStr entries "total_block_claim_count" = some tbccRaw ∧
      pyIntOfCVal tbccRaw = .ok tbcc ∧ 0 ≤ tbcc ∧
      pyDictGetStr entries "_validators" = some (.cmap ventries) ∧
      (ConsensusState.parseValidatorsLoop ⟨alm, tbcc, []⟩ ventries).2 = none ∧
      s.parse_from_bytes (.cmap entries) =
        ConsensusState.parseValidatorsLoop ⟨alm, tbcc, []⟩ ventries := by
  simp only [ConsensusState.parse_from_bytes] at h
  cases h1 : pyDictGetStr entries "aggregate_local_mean" with
  | none => simp [h1] at h
  | some almRaw =>
  simp only [h1] at h
  cases h2 : pyFloatOfCVal almRaw with
  | error e => simp [h2] at h
  | ok alm =>
  simp only [h2] at h
  cases h3 : pyDictGetStr entries "total_block_claim_count" with
  | none => simp [h3] at h
  | some tbccRaw =>
  simp only [h3] at h
  cases h4 : pyIntOfCVal tbccRaw with
  | error e => simp [h4] at h
  | ok tbcc =>
  simp only [h4] at h
  cases h5 : pyDictGetStr entries "_validators" with
  | none => simp [h5] at h
  | some validators =>
  simp only [h5] at h
  by_cases h6 : (¬ alm.isfinite = true ∨ alm.ltZero = true)
  · rw [if_pos h6] at h; exact absurd h (by simp)
  · rw [if_neg h6] at h
    by_cases h7 : tbcc < 0
    · rw [if_pos h7] at h; exact absurd h (by simp)
    · rw [if_neg h7] at h
      obtain ⟨h6a, h6b⟩ := not_or.mp h6
      have h6a2 : alm.isfinite = true := not_not.mp h6a
      have h6b2 : alm.ltZero = false := by simpa using h6b
      cases validators with
      | cmap ventries =>
          simp only at h
          have hparse : s.parse_from_bytes (.cmap entries) =
              ConsensusState.parseValidatorsLoop ⟨alm, tbcc, []⟩ ventries := by
            simp only [ConsensusState.parse_from_bytes, h1, h2, h3, h4, h5]
            rw [if_neg h6, if_neg h7]
          exact ⟨almRaw, alm, tbccRaw, tbcc, ventries, rfl, h2, h6a2, h6b2,
            rfl, h4, by omega, rfl, h, hparse⟩
      | cint n => simp at h
      | cfloat f => simp at h
      | cstr s2 => simp at h
      | carr xs => simp at h
      | cnull => simp at h

/-- String-keyed lookup distributes over appended association-list
segments. -/
theorem pyDictGet_append {V : Type} (d1 d2 : List (String × V))
    (key : String) :
    pyDictGet (d1 ++ d2) key =
      match pyDictGet d1 key with
      | some v => some v
      | none => pyDictGet d2 key := by
  induction d1 with
  | nil => simp [pyDictGet]
  | cons hd tl ih =>
      by_cases hk : hd.1 = key
      · simp [pyDictGet, hk]
      · simp [pyDictGet, hk, ih]

/-- The three reserved lookups on the top-level mapping emitted by
`serialize_to_bytes`. -/
theorem pyDictGetStr_serialize (a b c : CVal) :
    pyDictGetStr
        [(CVal.cstr "aggregate_local_mean", a),
          (CVal.cstr "total_block_claim_count", b),
          (CVal.cstr "_validators", c)] "aggregate_local_mean" = some a ∧
    pyDictGetStr
        [(CVal.cstr "aggregate_local_mean", a),
          (CVal.cstr "total_block_claim_count", b),
          (CVal.cstr "_validators", c)] "total_block_claim_count" = some b ∧
    pyDictGetStr
        [(CVal.cstr "aggregate_local_mean", a),
          (CVal.cstr "total_block_claim_count", b),
          (CVal.cstr "_validators", c)] "_validators" = some c := by
  refine ⟨?_, ?_, ?_⟩ <;> simp [pyDictGetStr]

/-- The validator loop, run over the positional encoding of a validator
dict whose records are valid and whose keys are distinct and absent from the
accumulator, rebuilds exactly that dict behind the accumulator. -/
theorem parseValidatorsLoop_roundtrip (vs : List (String × ValidatorState))
    (alm : PyFloat) (tbcc : ℤ) (acc : List (String × ValidatorState))
    (hvalid : ∀ kv ∈ vs, kv.2.valid)
    (hfresh : ∀ kv ∈ vs, pyDictGet acc kv.1 = none)
    (hpair : vs.Pairwise (fun a b => a.1 ≠ b.1)) :
    ConsensusState.parseValidatorsLoop ⟨alm, tbcc, acc⟩
        (vs.map fun kv =>
          (CVal.cstr kv.1,
            CVal.carr
              [ .cint kv.2.key_block_claim_count,
                .cstr kv.2.poet_public_key,
                .cint kv.2.total_block_claim_count ])) =
      (⟨alm, tbcc, acc ++ vs⟩, none) := by
  induction vs generalizing acc with
  | nil => simp [ConsensusState.parseValidatorsLoop]
  | cons kv rest ih =>
      obtain ⟨k, v⟩ := kv
      have hv : v.valid := hvalid (k, v) (by simp)
      simp only [List.map_cons, ConsensusState.parseValidatorsLoop,
        validatorStateMake, checkValidatorState_encode v hv, pyStrOfCVal]
      rw [pyDictInsert_fresh acc k v (hfresh (k, v) (by simp))]
      have hfresh2 : ∀ kv2 ∈ rest, pyDictGet (acc ++ [(k, v)]) kv2.1 = none := by
        intro kv2 hkv2
        rw [pyDictGet_append]
        have hne : k ≠ kv2.1 := (List.pairwise_cons.mp hpair).1 kv2 hkv2
        have hnone : pyDictGet [(k, v)] kv2.1 = none := by
          simp only [pyDictGet, if_neg hne]
        simp [hfresh kv2 (by simp [hkv2]), hnone]
      have hrec := ih (acc ++ [(k, v)])
        (fun kv2 hkv2 => hvalid kv2 (by simp [hkv2])) hfresh2
        (List.pairwise_cons.mp hpair).2
      rw [hrec]
      simp [List.append_assoc]

/-- C1: deserializing the serialization of any valid state succeeds (no
error is raised) and reproduces the aggregate local mean, the total block
claim count and the full validator map, whatever state the target instance
held before. -/
theorem C1_serialize_parse_roundtrip (t s : ConsensusState) (hs : s.valid) :
    t.parse_from_bytes s.serialize_to_bytes = (s, none) := by
  obtain ⟨h1, h2, h3, h4, h5⟩ := hs
  have es := pyDictGetStr_serialize (CVal.cfloat s.aggregate_local_mean)
    (CVal.cint s.total_block_claim_count)
    (CVal.cmap (s.validators.map fun kv =>
      (CVal.cstr kv.1,
        CVal.carr
          [ .cint kv.2.key_block_claim_count,
            .cstr kv.2.poet_public_key,
            .cint kv.2.total_block_claim_count ])))
  simp only [ConsensusState.serialize_to_bytes, ConsensusState.parse_from_bytes,
    es.1, es.2.1, es.2.2, pyFloatOfCVal, pyIntOfCVal]
  rw [if_neg (by simp [h1, h2])]
  rw [if_neg (by omega)]
  rw [parseValidatorsLoop_roundtrip s.validators s.aggregate_local_mean
    s.total_block_claim_count [] h4 (fun kv _ => rfl) h5]
  simp

/-- Witness for C1: a dirty target instance, a valid two-validator state;
parsing the serialization returns exactly that state with no error. -/
theorem C1_serialize_parse_roundtrip_witness :
    (ConsensusState.mk .nan (-5) [("x", ⟨9, "Z", 1⟩)]).parse_from_bytes
        (ConsensusState.mk (.finite 2) 3
            [("v1", ⟨1, "A", 2⟩), ("v2", ⟨0, "B", 4⟩)]).serialize_to_bytes =
      (ConsensusState.mk (.finite 2) 3
          [("v1", ⟨1, "A", 2⟩), ("v2", ⟨0, "B", 4⟩)], none) :=
  C1_serialize_parse_roundtrip _ _ (by decide)

/-- A record that passes `_check_validator_state` had exactly an integer,
a string and an integer in its three positions. -/
theorem checkValidatorState_ok_shape (a b c : CVal) (vs : ValidatorState)
    (h : ConsensusState.checkValidatorState ⟨a, b, c⟩ = .ok vs) :
    a = .cint vs.key_block_claim_count ∧ b = .cstr vs.poet_public_key ∧
      c = .cint vs.total_block_claim_count := by
  simp only [ConsensusState.checkValidatorState] at h
  repeat' split at h
  all_goals first
    | (injection h with h2; subst h2; exact ⟨rfl, rfl, rfl⟩)
    | cases h

/-- The decoded buffer carries an `aggregate_local_mean` entry that coerces
to a non-finite or negative float. -/
def aggregateDecodedBad (entries : List (CVal × CVal)) : Prop :=
  ∃ v f, pyDictGetStr entries "aggregate_local_mean" = some v ∧
    pyFloatOfCVal v = .ok f ∧ (f.isfinite = false ∨ f.ltZero = true)

/-- The decoded buffer carries a `total_block_claim_count` entry that
coerces to a negative integer. -/
def totalDecodedBad (entries : List (CVal × CVal)) : Prop :=
  ∃ v n, pyDictGetStr entries "total_block_claim_count" = some v ∧
    pyIntOfCVal v = .ok n ∧ n < 0

/-- The decoded record is a 3-tuple whose positions encode a current-key
count exceeding the lifetime count, a negative lifetime count, or an empty
key. -/
def recordDecodedBad (value : CVal) : Prop :=
  ∃ a b c, value = .carr [a, b, c] ∧
    ((∃ k t : ℤ, a = .cint k ∧ c = .cint t ∧ t < k) ∨
      (∃ t : ℤ, c = .cint t ∧ t < 0) ∨
      b = .cstr "")

/-- The decoded buffer carries a validators dict one of whose entries is a
bad record in the sense of `recordDecodedBad`. -/
def validatorsDecodedBad (entries : List (CVal × CVal)) : Prop :=
  ∃ ventries kv, pyDictGetStr entries "_validators" = some (.cmap ventries) ∧
    kv ∈ ventries ∧ recordDecodedBad kv.2

/-- A bad record (in the sense of `recordDecodedBad`) never passes
`_check_validator_state`. -/
theorem recordDecodedBad_check_fails (value : CVal)
    (hbad : recordDecodedBad value) (raw : RawValidatorState)
    (hmake : validatorStateMake value = .ok raw) (vs : ValidatorState) :
    ConsensusState.checkValidatorState raw ≠ .ok vs := by
  intro hok
  obtain ⟨a, b, c, rfl, hcase⟩ := hbad
  have hraw : raw = ⟨a, b, c⟩ := by
    simp only [validatorStateMake] at hmake
    injection hmake with h2
    exact h2.symm
  subst hraw
  obtain ⟨hs1, hs2, hs3⟩ := checkValidatorState_ok_shape a b c vs hok
  obtain ⟨hv1, hv2, hv3, hv4⟩ := checkValidatorState_ok_valid ⟨a, b, c⟩ vs hok
  rcases hcase with ⟨k, t, ha, hc, hkt⟩ | ⟨t, hc, ht⟩ | hb
  · rw [hs1] at ha
    rw [hs3] at hc
    injection ha with ha2
    injection hc with hc2
    omega
  · rw [hs3] at hc
    injection hc with hc2
    omega
  · rw [hs2] at hb
    injection hb with hb2
    rw [hb2] at hv2
    simp at hv2

/-- C3: `parse_from_bytes` raises its single wrapped-ValueError validation
failure on every buffer whose decoded mapping carries a non-finite or
negative aggregate, a negative total count, or a validator record with
`key_block_claim_count` above `total_block_claim_count`, a negative
`total_block_claim_count`, or an empty `poet_public_key`; and whenever it
returns without error, the resulting state contains none of those values. -/
theorem C3_invariant_rejection (s : ConsensusState) (buffer : CVal) :
    (∀ entries, buffer = CVal.cmap entries →
      (aggregateDecodedBad entries ∨ totalDecodedBad entries ∨
        validatorsDecodedBad entries) →
      (s.parse_from_bytes buffer).2.isSome = true) ∧
    (∀ s2, s.parse_from_bytes buffer = (s2, none) →
      s2.aggregate_local_mean.isfinite = true ∧
      s2.aggregate_local_mean.ltZero = false ∧
      0 ≤ s2.total_block_claim_count ∧
      ∀ kv ∈ s2.validators, kv.2.valid) := by
  constructor
  · rintro entries rfl hbad
    by_contra hnot
    have hnone : (s.parse_from_bytes (.cmap entries)).2 = none := by
      cases hh : (s.parse_from_bytes (.cmap entries)).2 with
      | none => rfl
      | some e => rw [hh] at hnot; simp at hnot
    obtain ⟨almRaw, alm, tbccRaw, tbcc, ventries,
      g1, g2, g3, g4, g5, g6, g7, g8, g9, g10⟩ :=
      parse_from_bytes_success_shape s entries hnone
    rcases hbad with ⟨v, f, hv, hf, hbadf⟩ | ⟨v, n, hv, hn, hbadn⟩ |
      ⟨ventries2, kv, hv, hkv, hbadr⟩
    · rw [g1] at hv
      injection hv with hv2
      subst hv2
      rw [g2] at hf
      injection hf with hf2
      subst hf2
      rcases hbadf with hx | hx
      · rw [g3] at hx; simp at hx
      · rw [g4] at hx; simp at hx
    · rw [g5] at hv
      injection hv with hv2
      subst hv2
      rw [g6] at hn
      injection hn with hn2
      omega
    · rw [g8] at hv
      injection hv with hv2
      injection hv2 with hv3
      subst hv3
      obtain ⟨raw, vsr, hmake, hcheck⟩ :=
        parseValidatorsLoop_success_checks ventries _ g9 kv hkv
      exact recordDecodedBad_check_fails kv.2 hbadr raw hmake vsr hcheck
  · intro s2 hparse
    cases buffer with
    | cmap entries =>
        have hnone : (s.parse_from_bytes (.cmap entries)).2 = none := by
          rw [hparse]
        obtain ⟨almRaw, alm, tbccRaw, tbcc, ventries,
          g1, g2, g3, g4, g5, g6, g7, g8, g9, g10⟩ :=
          parse_from_bytes_success_shape s entries hnone
        rw [g10] at hparse
        have hfields := parseValidatorsLoop_fields ventries ⟨alm, tbcc, []⟩
        have hvalid :=
          parseValidatorsLoop_all_valid ventries ⟨alm, tbcc, []⟩ (by simp) g9
        have h1p : (ConsensusState.parseValidatorsLoop
            ⟨alm, tbcc, []⟩ ventries).1 = s2 := by
          rw [hparse]
        refine ⟨?_, ?_, ?_, ?_⟩
        · rw [← h1p, hfields.1]; exact g3
        · rw [← h1p, hfields.1]; exact g4
        · rw [← h1p, hfields.2]; exact g7
        · rw [← h1p]; exact hvalid
    | cint n => exact absurd hparse (by simp [ConsensusState.parse_from_bytes])
    | cfloat f => exact absurd hparse (by simp [ConsensusState.parse_from_bytes])
    | cstr st => exact absurd hparse (by simp [ConsensusState.parse_from_bytes])
    | carr xs => exact absurd hparse (by simp [ConsensusState.parse_from_bytes])
    | cnull => exact absurd hparse (by simp [ConsensusState.parse_from_bytes])

/-- Witness for C3: a buffer with a negative top-level count is rejected,
and a clean buffer parses into a state satisfying every checked bound. -/
theorem C3_invariant_rejection_witness :
    (ConsensusState.init.parse_from_bytes
        (.cmap
          [(.cstr "aggregate_local_mean", .cfloat (.finite 1)),
            (.cstr "total_block_claim_count", .cint (-1)),
            (.cstr "_validators", .cmap [])])).2.isSome = true ∧
    ((ConsensusState.mk (.finite 1) 0 []).aggregate_local_mean.isfinite = true ∧
      (ConsensusState.mk (.finite 1) 0 []).aggregate_local_mean.ltZero = false ∧
      0 ≤ (ConsensusState.mk (.finite 1) 0 []).total_block_claim_count ∧
      ∀ kv ∈ (ConsensusState.mk (.finite 1) 0 []).validators, kv.2.valid) := by
  constructor
  · exact (C3_invariant_rejection ConsensusState.init _).1 _ rfl
      (Or.inr (Or.inl ⟨.cint (-1), -1, by simp [pyDictGetStr], rfl, by norm_num⟩))
  · exact (C3_invariant_rejection ConsensusState.init
        (.cmap
          [(.cstr "aggregate_local_mean", .cfloat (.finite 1)),
            (.cstr "total_block_claim_count", .cint 0),
            (.cstr "_validators", .cmap [])])).2
      (ConsensusState.mk (.finite 1) 0 []) (by decide)

/-- `parse_from_bytes` raises before assigning any field exactly when the
buffer is not a mapping, or its `aggregate_local_mean` entry is missing or
not numerically coercible (the very first assignment in the method body). -/
def failsBeforeFirstAssignment (buffer : CVal) : Bool :=
  match buffer with
  | .cmap entries =>
      match pyDictGetStr entries "aggregate_local_mean" with
      | none => true
      | some v =>
          match pyFloatOfCVal v with
          | .error _ => true
          | .ok _ => false
  | _ => true

/-- Counterexample to C2: a pre-existing state and a buffer (decoding to a
negative `total_block_claim_count`) on which `parse_from_bytes` raises the
validation error, yet afterwards both `aggregate_local_mean` and
`total_block_claim_count` hold the partially decoded values instead of the
pre-existing ones: the failed call is not atomic. -/
theorem C2_counterexample_not_atomic :
    ((ConsensusState.mk (.finite 1) 2
          [("v", ⟨1, "K", 3⟩)]).parse_from_bytes
        (.cmap
          [(.cstr "aggregate_local_mean", .cfloat (.finite 7)),
            (.cstr "total_block_claim_count", .cint (-1)),
            (.cstr "_validators", .cmap [])])).2.isSome = true ∧
    ¬ (((ConsensusState.mk (.finite 1) 2
            [("v", ⟨1, "K", 3⟩)]).parse_from_bytes
          (.cmap
            [(.cstr "aggregate_local_mean", .cfloat (.finite 7)),
              (.cstr "total_block_claim_count", .cint (-1)),
              (.cstr "_validators", .cmap [])])).1.aggregate_local_mean =
          (ConsensusState.mk (.finite 1) 2
            [("v", ⟨1, "K", 3⟩)]).aggregate_local_mean ∧
        ((ConsensusState.mk (.finite 1) 2
            [("v", ⟨1, "K", 3⟩)]).parse_from_bytes
          (.cmap
            [(.cstr "aggregate_local_mean", .cfloat (.finite 7)),
              (.cstr "total_block_claim_count", .cint (-1)),
              (.cstr "_validators", .cmap [])])).1.total_block_claim_count =
          (ConsensusState.mk (.finite 1) 2
            [("v", ⟨1, "K", 3⟩)]).total_block_claim_count) := by
  decide

/-- C2 as amended: a failed `parse_from_bytes` call leaves the pre-existing
state unchanged only when the failure occurs before the first field
assignment (buffer not a mapping, or `aggregate_local_mean` missing or not
coercible); otherwise the fields assigned before the failing check keep the
partially decoded values, as the counterexample shows. -/
theorem C2_amended_unchanged_before_first_assignment (s : ConsensusState)
    (buffer : CVal) (h : failsBeforeFirstAssignment buffer = true) :
    (s.parse_from_bytes buffer).1 = s ∧
    (s.parse_from_bytes buffer).2.isSome = true := by
  cases buffer with
  | cmap entries =>
      simp only [failsBeforeFirstAssignment] at h
      cases h1 : pyDictGetStr entries "aggregate_local_mean" with
      | none => simp [ConsensusState.parse_from_bytes, h1]
      | some v =>
          simp only [h1] at h
          cases h2 : pyFloatOfCVal v with
          | error e => simp [ConsensusState.parse_from_bytes, h1, h2]
          | ok f => simp [h2] at h
  | cint n => simp [ConsensusState.parse_from_bytes]
  | cfloat f => simp [ConsensusState.parse_from_bytes]
  | cstr st => simp [ConsensusState.parse_from_bytes]
  | carr xs => simp [ConsensusState.parse_from_bytes]
  | cnull => simp [ConsensusState.parse_from_bytes]

/-- Witness for the amended C2: a null buffer fails and leaves the
pre-existing state exactly as it was. -/
theorem C2_amended_unchanged_witness :
    ((ConsensusState.mk (.finite 1) 2
          [("v", ⟨1, "K", 3⟩)]).parse_from_bytes .cnull).1 =
        ConsensusState.mk (.finite 1) 2 [("v", ⟨1, "K", 3⟩)] ∧
    ((ConsensusState.mk (.finite 1) 2
          [("v", ⟨1, "K", 3⟩)]).parse_from_bytes .cnull).2.isSome = true :=
  C2_amended_unchanged_before_first_assignment
    (ConsensusState.mk (.finite 1) 2 [("v", ⟨1, "K", 3⟩)]) .cnull rfl

/-- A key bound in a string-keyed dict is one of its entries. -/
theorem pyDictGet_mem {V : Type} (d : List (String × V)) (k : String) (v : V)
    (h : pyDictGet d k = some v) : (k, v) ∈ d := by
  induction d with
  | nil => simp [pyDictGet] at h
  | cons hd tl ih =>
      obtain ⟨k2, v2⟩ := hd
      by_cases hk : k2 = k
      · subst hk
        simp only [pyDictGet, if_pos rfl] at h
        injection h with h2
        subst h2
        exact List.mem_cons_self _ _
      · simp only [pyDictGet, if_neg hk] at h
        exact List.mem_cons_of_mem _ (ih h)

/-- `get_validator_state` keeps every stored record valid when the supplied
signup key is non-empty. -/
theorem get_validator_state_preserves_valid (s : ConsensusState)
    (vi : ValidatorInfo) (hkey : 1 ≤ vi.signup_info.poet_public_key.length)
    (hs : ∀ kv ∈ s.validators, kv.2.valid) :
    ∀ kv ∈ (s.get_validator_state vi).2.validators, kv.2.valid := by
  cases hg : pyDictGet s.validators vi.id with
  | some vs => simpa [ConsensusState.get_validator_state, hg] using hs
  | none =>
      simp only [ConsensusState.get_validator_state, hg]
      intro kv hkv
      rcases pyDictInsert_mem _ _ _ kv hkv with rfl | hkv2
      · exact ⟨by norm_num, hkey, by norm_num, by norm_num⟩
      · exact hs kv hkv2

/-- `validator_did_claim_block` keeps every stored record valid when the
supplied signup key is non-empty. -/
theorem validator_did_claim_block_preserves_valid (s : ConsensusState)
    (vi : ValidatorInfo) (wc : WaitCertificate)
    (hkey : 1 ≤ vi.signup_info.poet_public_key.length)
    (hs : ∀ kv ∈ s.validators, kv.2.valid) :
    ∀ kv ∈ (s.validator_did_claim_block vi wc).validators, kv.2.valid := by
  cases hg : pyDictGet s.validators vi.id with
  | some vs =>
      have hvs : vs.valid := hs (vi.id, vs) (pyDictGet_mem s.validators vi.id vs hg)
      obtain ⟨a1, a2, a3, a4⟩ := hvs
      rw [ConsensusState.validator_did_claim_block_stored s vi wc vs hg]
      intro kv hkv
      rcases pyDictInsert_mem _ _ _ kv hkv with rfl | hkv2
      · simp only [ValidatorState.valid]
        refine ⟨?_, hkey, ?_, ?_⟩
        · split <;> omega
        · omega
        · split <;> omega
      · exact hs kv hkv2
  | none =>
      simp only [ConsensusState.validator_did_claim_block,
        ConsensusState.get_validator_state, hg]
      intro kv hkv
      rcases pyDictInsert_mem _ _ _ kv hkv with rfl | hkv2
      · simp only [ValidatorState.valid]
        refine ⟨?_, hkey, ?_, ?_⟩
        · split <;> omega
        · omega
        · split <;> omega
      · rcases pyDictInsert_mem _ _ _ kv hkv2 with rfl | hkv3
        · simp only [ValidatorState.valid]
          exact ⟨by norm_num, hkey, by norm_num, by norm_num⟩
        · exact hs kv hkv3

/-- A successful `parse_from_bytes` only stores records that passed
`_check_validator_state`, hence only valid ones. -/
theorem parse_success_all_valid (s : ConsensusState) (buffer : CVal)
    (s2 : ConsensusState) (h : s.parse_from_bytes buffer = (s2, none)) :
    ∀ kv ∈ s2.validators, kv.2.valid := by
  cases buffer with
  | cmap entries =>
      have hnone : (s.parse_from_bytes (.cmap entries)).2 = none := by rw [h]
      obtain ⟨almRaw, alm, tbccRaw, tbcc, ventries,
        g1, g2, g3, g4, g5, g6, g7, g8, g9, g10⟩ :=
        parse_from_bytes_success_shape s entries hnone
      rw [g10] at h
      have h1p : (ConsensusState.parseValidatorsLoop
          ⟨alm, tbcc, []⟩ ventries).1 = s2 := by rw [h]
      rw [← h1p]
      exact parseValidatorsLoop_all_valid ventries ⟨alm, tbcc, []⟩ (by simp) g9
  | cint n => exact absurd h (by simp [ConsensusState.parse_from_bytes])
  | cfloat f => exact absurd h (by simp [ConsensusState.parse_from_bytes])
  | cstr st => exact absurd h (by simp [ConsensusState.parse_from_bytes])
  | carr xs => exact absurd h (by simp [ConsensusState.parse_from_bytes])
  | cnull => exact absurd h (by simp [ConsensusState.parse_from_bytes])

/-- Validity of the inputs an interface call receives from its
collaborators: registry keys are non-empty, local means are finite and
non-negative. -/
def Op.inputOk : Op → Bool
  | .get vi => 1 ≤ vi.signup_info.poet_public_key.length
  | .claim vi wc =>
      decide (1 ≤ vi.signup_info.poet_public_key.length) &&
        wc.local_mean.isfinite && !wc.local_mean.ltZero
  | .parse _ => true

/-- `true` when every `parse_from_bytes` call in the sequence succeeds on
the state it is actually applied to. -/
def parsesSucceedAlong (s : ConsensusState) : List Op → Bool
  | [] => true
  | op :: rest =>
      (match op with
        | .parse buffer => (s.parse_from_bytes buffer).2.isNone
        | _ => true) && parsesSucceedAlong (applyOp s op) rest

/-- Record validity is preserved by every valid-input interface call along a
trajectory whose parses succeed. -/
theorem applyOps_records_valid (ops : List Op) (s : ConsensusState)
    (hs : ∀ kv ∈ s.validators, kv.2.valid)
    (hops : ∀ op ∈ ops, op.inputOk = true)
    (hsucc : parsesSucceedAlong s ops = true) :
    ∀ kv ∈ (applyOps s ops).validators, kv.2.valid := by
  induction ops generalizing s with
  | nil => simpa [applyOps] using hs
  | cons op rest ih =>
      simp only [parsesSucceedAlong, Bool.and_eq_true] at hsucc
      have hstep : ∀ kv ∈ (applyOp s op).validators, kv.2.valid := by
        cases op with
        | get vi =>
            have hkey : 1 ≤ vi.signup_info.poet_public_key.length := by
              have := hops (.get vi) (by simp)
              simpa [Op.inputOk] using this
            exact get_validator_state_preserves_valid s vi hkey hs
        | claim vi wc =>
            have hkey : 1 ≤ vi.signup_info.poet_public_key.length := by
              have := hops (.claim vi wc) (by simp)
              simp only [Op.inputOk, Bool.and_eq_true, decide_eq_true_eq] at this
              exact this.1.1
            exact validator_did_claim_block_preserves_valid s vi wc hkey hs
        | parse buffer =>
            have hnone : (s.parse_from_bytes buffer).2 = none := by
              have := hsucc.1
              simpa [Option.isNone_iff_eq_none] using this
            have hpair : s.parse_from_bytes buffer =
                ((s.parse_from_bytes buffer).1, none) := by
              rw [← hnone]
            exact parse_success_all_valid s buffer _ hpair
      have hops2 : ∀ o ∈ rest, o.inputOk = true :=
        fun o ho => hops o (by simp [ho])
      simpa [applyOps] using ih (applyOp s op) hstep hops2 hsucc.2

/-- C7: in every state reachable from a fresh `ConsensusState` by
`get_validator_state` and `validator_did_claim_block` calls with valid
inputs and by successful `parse_from_bytes` calls, every stored record has
non-negative counts, a non-empty key, and `key_block_claim_count` at most
`total_block_claim_count`. -/
theorem C7_record_invariant_reachable (ops : List Op)
    (hops : ∀ op ∈ ops, op.inputOk = true)
    (hsucc : parsesSucceedAlong ConsensusState.init ops = true) :
    ∀ kv ∈ (applyOps ConsensusState.init ops).validators, kv.2.valid :=
  applyOps_records_valid ops ConsensusState.init
    (by simp [ConsensusState.init]) hops hsucc

/-- Witness for C7: after a get, a claim and a successful parse, the record
the final state stores for `v3` satisfies the record invariant. -/
theorem C7_record_invariant_reachable_witness :
    ValidatorState.valid ⟨2, "C", 5⟩ := by
  have h :=
    C7_record_invariant_reachable
      [Op.get ⟨"v2", "n", ⟨"B"⟩⟩,
        Op.claim ⟨"v1", "n", ⟨"A"⟩⟩ ⟨.finite 1⟩,
        Op.parse
          (.cmap
            [(.cstr "aggregate_local_mean", .cfloat (.finite 1)),
              (.cstr "total_block_claim_count", .cint 6),
              (.cstr "_validators",
                .cmap [(.cstr "v3", .carr [.cint 2, .cstr "C", .cint 5])])])]
      (by decide) (by decide)
  exact h ("v3", ⟨2, "C", 5⟩) (by decide)

/-- Whether a decoded value is a CBOR integer (Python `int`). -/
def CVal.isIntVal : CVal → Bool
  | .cint _ => true
  | _ => false

/-- Whether a decoded value is a CBOR text string (Python `str`). -/
def CVal.isStrVal : CVal → Bool
  | .cstr _ => true
  | _ => false

/-- Whether a fallible result is a success. -/
def exceptIsOk {ε α : Type} : Except ε α → Bool
  | .ok _ => true
  | .error _ => false

/-- C10: the two top-level numbers are accepted after Python numeric
coercion — an integer aggregate is accepted as a float and a non-integer
numeric total (3.7) is accepted and truncated toward zero to 3 — whereas
the three positions of a validator record pass `_check_validator_state`
only with their exact required type: an integral *float* count is rejected
at parse time, and any record whose count positions are not integers or
whose key position is not a string is rejected. -/
theorem C10_coercion_asymmetry :
    (ConsensusState.init.parse_from_bytes
        (.cmap
          [(.cstr "aggregate_local_mean", .cint 4),
            (.cstr "total_block_claim_count",
              .cfloat (.finite ⟨37, 10, by norm_num, by norm_num⟩)),
            (.cstr "_validators", .cmap [])]) =
      (ConsensusState.mk (.finite 4) 3 [], none)) ∧
    ((ConsensusState.init.parse_from_bytes
        (.cmap
          [(.cstr "aggregate_local_mean", .cfloat (.finite 0)),
            (.cstr "total_block_claim_count", .cint 0),
            (.cstr "_validators",
              .cmap
                [(.cstr "v1",
                  .carr [.cfloat (.finite 3), .cstr "K", .cint 5])])])).2.isSome =
      true) ∧
    (∀ raw : RawValidatorState, raw.key_block_claim_count.isIntVal = false →
      exceptIsOk (ConsensusState.checkValidatorState raw) = false) ∧
    (∀ raw : RawValidatorState, raw.poet_public_key.isStrVal = false →
      exceptIsOk (ConsensusState.checkValidatorState raw) = false) ∧
    (∀ raw : RawValidatorState, raw.total_block_claim_count.isIntVal = false →
      exceptIsOk (ConsensusState.checkValidatorState raw) = false) := by
  refine ⟨by decide, by decide, ?_, ?_, ?_⟩
  · intro raw hbad
    cases hc : ConsensusState.checkValidatorState raw with
    | error e => rfl
    | ok vs =>
        obtain ⟨r1, r2, r3⟩ := raw
        obtain ⟨hs1, hs2, hs3⟩ := checkValidatorState_ok_shape r1 r2 r3 vs hc
        rw [hs1] at hbad
        simp [CVal.isIntVal] at hbad
  · intro raw hbad
    cases hc : ConsensusState.checkValidatorState raw with
    | error e => rfl
    | ok vs =>
        obtain ⟨r1, r2, r3⟩ := raw
        obtain ⟨hs1, hs2, hs3⟩ := checkValidatorState_ok_shape r1 r2 r3 vs hc
        rw [hs2] at hbad
        simp [CVal.isStrVal] at hbad
  · intro raw hbad
    cases hc : ConsensusState.checkValidatorState raw with
    | error e => rfl
    | ok vs =>
        obtain ⟨r1, r2, r3⟩ := raw
        obtain ⟨hs1, hs2, hs3⟩ := checkValidatorState_ok_shape r1 r2 r3 vs hc
        rw [hs3] at hbad
        simp [CVal.isIntVal] at hbad

/-- Witness for C10: records whose count positions hold a float or whose
key position holds an integer are rejected by `_check_validator_state`. -/
theorem C10_coercion_asymmetry_witness :
    exceptIsOk
        (ConsensusState.checkValidatorState
          ⟨.cfloat (.finite 3), .cstr "K", .cint 5⟩) = false ∧
    exceptIsOk
        (ConsensusState.checkValidatorState ⟨.cint 1, .cint 2, .cint 5⟩) =
      false ∧
    exceptIsOk
        (ConsensusState.checkValidatorState
          ⟨.cint 1, .cstr "K", .cfloat (.finite 5)⟩) = false :=
  ⟨C10_coercion_asymmetry.2.2.1 ⟨.cfloat (.finite 3), .cstr "K", .cint 5⟩ rfl,
    C10_coercion_asymmetry.2.2.2.1 ⟨.cint 1, .cint 2, .cint 5⟩ rfl,
    C10_coercion_asymmetry.2.2.2.2 ⟨.cint 1, .cstr "K", .cfloat (.finite 5)⟩ rfl⟩
